import Mathlib

/-!
Verification of the OATF evaluation-engine primitives (path resolution,
duration parsing, condition/predicate evaluation, template interpolation,
the trigger state machine and verdict correlation) against their design
specification.  Rust strings are modelled as lists of characters, JSON
numbers as rationals (serde_json numbers are finite doubles, totally
ordered and exactly representable as rationals), and external crates
(the regex engine, serde number/JSON rendering, the protocol qualifier
registry) as explicit function parameters.
-/

namespace Oatf

/-- Rust strings, modelled at character granularity. -/
abbrev Str := List Char

/-- The open-brace character, written numerically. -/
def lbC : Char := Char.ofNat 123

/-- The close-brace character, written numerically. -/
def rbC : Char := Char.ofNat 125

/-- The backslash character. -/
def bsC : Char := Char.ofNat 92

/-- The NUL character used in the interpolation sentinel. -/
def nulC : Char := Char.ofNat 0

-- ─── Value tree (serde_json::Value) ─────────────────────────────────────────

/-- A JSON-like value tree.  Objects are key-ordered association lists;
numbers are rationals (`as_f64` is the identity on them). -/
inductive Value where
  | null : Value
  | bool (b : Bool) : Value
  | num (n : ℚ) : Value
  | str (s : Str) : Value
  | arr (elems : List Value) : Value
  | obj (fields : List (Str × Value)) : Value

/-- Object key lookup (serde_json map get): first binding wins. -/
def objLookup (fields : List (Str × Value)) (key : Str) : Option Value :=
  match fields with
  | [] => none
  | (k, v) :: rest => if k = key then some v else objLookup rest key

/-- `Value::as_object` composed with `get`. -/
def Value.getKey (v : Value) (key : Str) : Option Value :=
  match v with
  | .obj fields => objLookup fields key
  | _ => none

/-- `Value::as_array`. -/
def Value.asArray (v : Value) : Option (List Value) :=
  match v with
  | .arr elems => some elems
  | _ => none

/-- `Value::as_str`. -/
def Value.asStr (v : Value) : Option Str :=
  match v with
  | .str s => some s
  | _ => none

/-- `Value::as_f64`: numbers convert, everything else does not. -/
def Value.asF64 (v : Value) : Option ℚ :=
  match v with
  | .num n => some n
  | _ => none

/-- Whether a value is an object that contains the given key
(used to state resolution facts). -/
def Value.isObj (v : Value) : Bool :=
  match v with
  | .obj _ => true
  | _ => false

-- ─── §5.1.1 resolve_simple_path ─────────────────────────────────────────────

/-- Rust `str::split` on a single separator character. -/
def splitOnChar (c : Char) : Str → List Str
  | [] => [[]]
  | x :: xs =>
    if x = c then [] :: splitOnChar c xs
    else
      match splitOnChar c xs with
      | s :: rest => (x :: s) :: rest
      | [] => [[x]]

/-- Walk a list of segments by object-key lookup. -/
def walkSegments : List Str → Value → Option Value
  | [], v => some v
  | seg :: rest, v =>
    match v.getKey seg with
    | some next => walkSegments rest next
    | none => none

/-- Resolves a simple dot-path against a value tree.  Returns the single
value at the path, or `none` if any segment fails to resolve.  The empty
path returns the root value. -/
def resolve_simple_path (path : Str) (value : Value) : Option Value :=
  if path = [] then some value
  else walkSegments (splitOnChar '.' path) value

-- ─── §5.1.2 resolve_wildcard_path ───────────────────────────────────────────

/-- One parsed segment of a wildcard dot-path. -/
structure WildcardSegment where
  name : Str
  wildcard : Bool
deriving DecidableEq

/-- The left-to-right scanner of `split_wildcard_segments`, carrying the
partial segment and the accumulated segment list. -/
def splitWildcardGo : Str → Str → List WildcardSegment → Option (List WildcardSegment)
  | [], current, segments =>
    if current = [] then some segments
    else some (segments ++ [⟨current, false⟩])
  | c :: rest, current, segments =>
    if c = '.' then
      if current = [] ∧ segments = [] then none -- leading dot
      else
        splitWildcardGo rest []
          (if current = [] then segments else segments ++ [⟨current, false⟩])
    else if c = '[' then
      -- the bracket must open a star-bracket pair, and after it comes a
      -- dot or the end of the path
      match rest with
      | c1 :: c2 :: rest2 =>
        if c1 = '*' ∧ c2 = ']' then
          match rest2 with
          | [] => splitWildcardGo [] [] (segments ++ [⟨current, true⟩])
          | c3 :: rest3 =>
            if c3 = '.' then splitWildcardGo rest3 [] (segments ++ [⟨current, true⟩])
            else none
        else none
      | _ => none
    else
      splitWildcardGo rest (current ++ [c]) segments

/-- Splits a wildcard dot-path into segments; `none` on malformed syntax. -/
def split_wildcard_segments (path : Str) : Option (List WildcardSegment) :=
  splitWildcardGo path [] []

/-- Processing of one wildcard-path segment over the working set: each
value contributes its fanned-out or looked-up results in order. -/
def wildcardStep (seg : WildcardSegment) (current : List Value) : List Value :=
  current.flatMap (fun val =>
    if seg.wildcard then
      let target : Option Value :=
        if seg.name = [] then some val else val.getKey seg.name
      match target with
      | some t =>
        match t.asArray with
        | some elems => elems
        | none => []
      | none => []
    else
      match val.getKey seg.name with
      | some v => [v]
      | none => [])

/-- Resolves a wildcard dot-path against a value tree.  Returns all values
that match, expanding across array elements via the wildcard segments; an
empty list if the path does not match or fails to parse. -/
def resolve_wildcard_path (path : Str) (value : Value) : List Value :=
  if path = [] then [value]
  else
    match split_wildcard_segments path with
    | none => []
    | some segments =>
      segments.foldl (fun cur seg => if cur.isEmpty then cur else wildcardStep seg cur) [value]

-- ─── §5.2 parse_duration ────────────────────────────────────────────────────

/-- Error kinds of the parse layer (the duration parser only uses the
Syntax kind). -/
inductive ParseErrorKind where
  | syntax_
  | typeMismatch
  | unknownVariant
deriving DecidableEq

/-- A parse error record. -/
structure ParseError where
  kind : ParseErrorKind
  message : Str
  path : Option Str
  line : Option Nat
  column : Option Nat
deriving DecidableEq

/-- The `duration_error` helper: a Syntax-kind error carrying a message. -/
def duration_error (message : Str) : ParseError :=
  { kind := .syntax_, message := message, path := none, line := none, column := none }

/-- Split a list at the first occurrence of `pat` (Rust `str::find` of a
substring followed by slicing): returns the part before and the part after
the occurrence, or `none` when `pat` never occurs. -/
def splitAtSub (pat : Str) : Str → Option (Str × Str)
  | [] => if pat = [] then some ([], []) else none
  | c :: rest =>
    if pat.isPrefixOf (c :: rest) then some ([], (c :: rest).drop pat.length)
    else
      match splitAtSub pat rest with
      | some (b, a) => some (c :: b, a)
      | none => none

/-- Rust `u64::from_str`: an optional plus sign, one or more decimal
digits, value below `2 ^ 64`; anything else fails. -/
def parse_u64 (s : Str) : Option Nat :=
  let digits := if s.head? = some '+' then s.tail else s
  if digits.isEmpty then none
  else if digits.all (fun c => '0' ≤ c ∧ c ≤ '9') then
    let n := digits.foldl (fun acc c => acc * 10 + (c.toNat - 48)) 0
    if n < 2 ^ 64 then some n else none
  else none

/-- `u64::checked_mul`: fails instead of wrapping past `2 ^ 64`. -/
def checkedMul (a b : Nat) : Option Nat :=
  if a * b < 2 ^ 64 then some (a * b) else none

/-- `u64::checked_add`: fails instead of wrapping past `2 ^ 64`. -/
def checkedAdd (a b : Nat) : Option Nat :=
  if a + b < 2 ^ 64 then some (a + b) else none

/-- Rust `str::strip_suffix` for a single-character suffix. -/
def stripSuffixChar (c : Char) (l : Str) : Option Str :=
  if l.getLast? = some c then some l.dropLast else none

/-- Durations are whole seconds (`Duration::from_secs`). -/
abbrev Duration := Nat

/-- Parses a shorthand duration `<digits><unit>` with unit s, m, h or d. -/
def parse_shorthand_duration (input : Str) : Except ParseError Duration :=
  if input.length < 2 then
    .error (duration_error ("invalid shorthand duration: ".data ++ input))
  else
    -- split before the last character
    let num_str := input.dropLast
    match input.getLast? with
    | none => .error (duration_error ("invalid shorthand duration: ".data ++ input))
    | some unit =>
      match parse_u64 num_str with
      | none => .error (duration_error ("invalid shorthand duration: ".data ++ input))
      | some n =>
        let secs : Option Nat :=
          if unit = 's' then some n
          else if unit = 'm' then checkedMul n 60
          else if unit = 'h' then checkedMul n 3600
          else if unit = 'd' then checkedMul n 86400
          else none
        if unit = 's' ∨ unit = 'm' ∨ unit = 'h' ∨ unit = 'd' then
          match secs with
          | some v => .ok v
          | none => .error (duration_error ("duration value too large: ".data ++ input))
        else .error (duration_error ("unknown duration unit: ".data ++ [unit]))

/-- The date component of an ISO duration (only `D` is supported),
accumulated onto a running total with checked arithmetic. -/
def isoDateComponent (input date_part : Str) (total : Nat) : Except ParseError Nat :=
  if date_part.isEmpty then .ok total
  else
    match stripSuffixChar 'D' date_part with
    | some num_str =>
      match parse_u64 num_str with
      | none => .error (duration_error ("invalid ISO duration: ".data ++ input))
      | some n =>
        match (checkedMul n 86400).bind (checkedAdd total) with
        | some v => .ok v
        | none => .error (duration_error ("duration value too large: ".data ++ input))
    | none => .error (duration_error ("invalid ISO duration: ".data ++ input))

/-- One time component of an ISO duration: if `unit` occurs, parse the
digits before it, scale by `mult`, add onto the total with checked
arithmetic and continue after it; otherwise leave the input unchanged. -/
def isoTimeComponent (input : Str) (unit : Char) (mult : Nat)
    (total : Nat) (remaining : Str) : Except ParseError (Nat × Str) :=
  match splitAtSub [unit] remaining with
  | none => .ok (total, remaining)
  | some (num_str, rest) =>
    match parse_u64 num_str with
    | none => .error (duration_error ("invalid ISO duration: ".data ++ input))
    | some n =>
      match (checkedMul n mult).bind (checkedAdd total) with
      | some v => .ok (v, rest)
      | none => .error (duration_error ("duration value too large: ".data ++ input))

/-- Parses a restricted ISO 8601 duration `P[<n>D][T[<n>H][<n>M][<n>S]]`.
Error propagation (the question-mark operator) appears as explicit
matches on the intermediate results. -/
def parse_iso_duration (input : Str) : Except ParseError Duration :=
  let rest := input.drop 1 -- strip leading P
  let (date_part, time_part) :=
    match splitAtSub ['T'] rest with
    | some (d, t) => (d, some t)
    | none => (rest, (none : Option Str))
  match isoDateComponent input date_part 0 with
  | .error e => .error e
  | .ok total =>
    match time_part with
    | some time =>
      if time.isEmpty then
        .error (duration_error ("invalid ISO duration: ".data ++ input))
      else
        match isoTimeComponent input 'H' 3600 total time with
        | .error e => .error e
        | .ok (total, remaining) =>
          match isoTimeComponent input 'M' 60 total remaining with
          | .error e => .error e
          | .ok (total, remaining) =>
            match isoTimeComponent input 'S' 1 total remaining with
            | .error e => .error e
            | .ok (total, remaining) =>
              if remaining.isEmpty then .ok total
              else .error (duration_error ("invalid ISO duration: ".data ++ input))
    | none =>
      -- must have at least some duration component
      if date_part.isEmpty then
        .error (duration_error ("invalid ISO duration: ".data ++ input))
      else .ok total

/-- Parses a duration string in either shorthand or ISO 8601 format. -/
def parse_duration (input : Str) : Except ParseError Duration :=
  if input.isEmpty then .error (duration_error "empty duration string".data)
  else if input.head? = some 'P' then parse_iso_duration input
  else parse_shorthand_duration input

-- ─── §5.3 deep equality ─────────────────────────────────────────────────────

mutual

/-- Deep equality: numbers compare by numeric value, arrays element-wise
(after a length check), objects by length plus key-wise lookup. -/
def values_deep_equal : Value → Value → Bool
  | .null, .null => true
  | .bool a, .bool b => a == b
  | .num a, .num b => a == b
  | .str a, .str b => a == b
  | .arr a, .arr b => a.length == b.length && arrayElemsEqual a b
  | .obj a, .obj b => a.length == b.length && objFieldsIncluded a b
  | _, _ => false

/-- Element-wise deep equality of zipped arrays (stops at the shorter). -/
def arrayElemsEqual : List Value → List Value → Bool
  | [], _ => true
  | _ :: _, [] => true
  | a :: as_, b :: bs => values_deep_equal a b && arrayElemsEqual as_ bs

/-- Every field of the first object deep-equals the looked-up field of
the second. -/
def objFieldsIncluded : List (Str × Value) → List (Str × Value) → Bool
  | [], _ => true
  | (k, v) :: rest, b =>
    (match objLookup b k with
     | some bv => values_deep_equal v bv
     | none => false) && objFieldsIncluded rest b

end

-- ─── §2.11 MatchCondition and §5.3 evaluate_condition ───────────────────────

/-- Operator-based match condition for field comparison.  All fields are
independent optional operators. -/
structure MatchCondition where
  contains : Option Str := none
  starts_with : Option Str := none
  ends_with : Option Str := none
  regex : Option Str := none
  any_of : Option (List Value) := none
  gt : Option ℚ := none
  lt : Option ℚ := none
  gte : Option ℚ := none
  lte : Option ℚ := none
  «exists» : Option Bool := none

/-- A condition is either a bare value (deep equality) or an operator set. -/
inductive Condition where
  | equality (v : Value) : Condition
  | operators (c : MatchCondition) : Condition

/-- Rust `str::contains`: substring containment. -/
def containsSub (hay needle : Str) : Bool :=
  if needle.isPrefixOf hay then true
  else
    match hay with
    | [] => false
    | _ :: t => containsSub t needle

/-- The regex engine (an external crate) as a parameter: given a pattern
and a subject, `none` models a pattern that fails to compile, and
`some b` a successful `is_match` returning `b`. -/
abbrev RegexImpl := Str → Str → Option Bool

/-- Evaluate a MatchCondition against a value: every present operator
must pass (the source's sequence of early `return false` checks is the
conjunction of the per-operator checks). -/
def evaluate_match_condition (re : RegexImpl) (cond : MatchCondition) (value : Value) : Bool :=
  (match cond.contains with
   | some s => (match value.asStr with
     | some v => containsSub v s
     | none => false)
   | none => true) &&
  (match cond.starts_with with
   | some s => (match value.asStr with
     | some v => s.isPrefixOf v
     | none => false)
   | none => true) &&
  (match cond.ends_with with
   | some s => (match value.asStr with
     | some v => s.isSuffixOf v
     | none => false)
   | none => true) &&
  (match cond.regex with
   | some pattern => (match value.asStr with
     | some v => (match re pattern v with
       | some matched => matched
       | none => false) -- invalid regex evaluates to false
     | none => false)
   | none => true) &&
  (match cond.any_of with
   | some items => items.any (fun item => values_deep_equal value item)
   | none => true) &&
  (match cond.gt with
   | some threshold => (match value.asF64 with
     | some v => decide (v > threshold)
     | none => false)
   | none => true) &&
  (match cond.lt with
   | some threshold => (match value.asF64 with
     | some v => decide (v < threshold)
     | none => false)
   | none => true) &&
  (match cond.gte with
   | some threshold => (match value.asF64 with
     | some v => decide (v ≥ threshold)
     | none => false)
   | none => true) &&
  (match cond.lte with
   | some threshold => (match value.asF64 with
     | some v => decide (v ≤ threshold)
     | none => false)
   | none => true)
  -- the exists operator is handled by evaluate_predicate, not here

/-- Evaluates a condition against a resolved value. -/
def evaluate_condition (re : RegexImpl) (condition : Condition) (value : Value) : Bool :=
  match condition with
  | .equality expected => values_deep_equal value expected
  | .operators cond => evaluate_match_condition re cond value

-- ─── §2.10, §5.4 predicates ─────────────────────────────────────────────────

/-- Either a scalar value (equality check) or an operator condition. -/
inductive MatchEntry where
  | scalar (v : Value) : MatchEntry
  | condition (c : MatchCondition) : MatchEntry

/-- A match predicate: path/condition entries, conjunction semantics.
The source iterates a hash map; order is irrelevant to the result, so the
entries are modelled as a list. -/
abbrev MatchPredicate := List (Str × MatchEntry)

/-- Whether a condition carries any operator besides `exists` (the
`has_other_ops` test of the source). -/
def hasOtherOps (cond : MatchCondition) : Bool :=
  cond.contains.isSome || cond.starts_with.isSome || cond.ends_with.isSome ||
  cond.regex.isSome || cond.any_of.isSome || cond.gt.isSome ||
  cond.lt.isSome || cond.gte.isSome || cond.lte.isSome

/-- Evaluate all operators of a condition except `exists`. -/
def evaluate_match_condition_excluding_exists (re : RegexImpl)
    (cond : MatchCondition) (value : Value) : Bool :=
  evaluate_match_condition re { cond with «exists» := none } value

/-- One (path, entry) pair of a predicate, per the source's loop body. -/
def evaluatePredicateEntry (re : RegexImpl) (path : Str) (entry : MatchEntry)
    (value : Value) : Bool :=
  let resolved := resolve_simple_path path value
  match entry with
  | .scalar expected =>
    match resolved with
    | some val => values_deep_equal val expected
    | none => false
  | .condition cond =>
    match cond.«exists» with
    | some false =>
      -- exists: false — the path must NOT resolve, and no other operator
      -- may be present
      if resolved.isSome then false
      else !hasOtherOps cond
    | some true =>
      -- exists: true — the path must resolve, then the remaining
      -- operators must pass
      match resolved with
      | some val => evaluate_match_condition_excluding_exists re cond val
      | none => false
    | none =>
      match resolved with
      | some val => evaluate_match_condition re cond val
      | none => false

/-- Evaluates a match predicate against a value: all entries AND-ed;
the empty predicate is true. -/
def evaluate_predicate (re : RegexImpl) (predicate : MatchPredicate) (value : Value) : Bool :=
  predicate.all (fun e => evaluatePredicateEntry re e.1 e.2 value)

-- ─── §5.5 interpolate_template ──────────────────────────────────────────────

/-- Severity of a diagnostic. -/
inductive DiagnosticSeverity where
  | error
  | warning
deriving DecidableEq

/-- A structured diagnostic message. -/
structure Diagnostic where
  severity : DiagnosticSeverity
  code : Str
  path : Option Str
  message : Str
deriving DecidableEq

/-- The W-004 warning for an unresolvable template reference. -/
def w004_diagnostic (expr : Str) : Diagnostic :=
  { severity := .warning, code := "W-004".data, path := none,
    message := "unresolvable template reference: \x27".data ++ expr ++ "\x27".data }

/-- Rust `str::replace`: replace every non-overlapping occurrence of
`pat`, scanning left to right.  (The empty pattern is never used by the
source; it is mapped to the identity.) -/
def replaceAll (pat rep : Str) (l : Str) : Str :=
  if h : pat = [] then l
  else
    match l with
    | [] => []
    | c :: rest =>
      if pat.isPrefixOf (c :: rest) then
        rep ++ replaceAll pat rep ((c :: rest).drop pat.length)
      else
        c :: replaceAll pat rep rest
termination_by l.length
decreasing_by
  · have hp : 0 < pat.length := List.length_pos.mpr h
    simp only [List.length_drop, List.length_cons]
    omega
  · simp only [List.length_cons]
    omega

/-- The private sentinel substituted for escaped open braces. -/
def PLACEHOLDER : Str := [nulC] ++ "ESCAPED_OPEN_BRACE".data ++ [nulC]

/-- Rust `str::strip_prefix`. -/
def stripPrefixStr (p e : Str) : Option Str :=
  if p.isPrefixOf e then some (e.drop p.length) else none

/-- `value_to_string`: strings verbatim, null and booleans textually;
number rendering and compact-JSON rendering are serde behaviour supplied
as parameters. -/
def value_to_string (renderNum : ℚ → Str) (renderJson : Value → Str) : Value → Str
  | .str s => s
  | .null => "null".data
  | .bool b => (if b then "true" else "false").data
  | .num n => renderNum n
  | .arr a => renderJson (.arr a)
  | .obj o => renderJson (.obj o)

/-- Resolution of one unescaped expression: the extractor table first,
then request-rooted or response-rooted simple paths, otherwise the empty
string together with a W-004 diagnostic. -/
def resolveExpr (ext : Str → Option Str) (renderNum : ℚ → Str) (renderJson : Value → Str)
    (request response : Option Value) (expr : Str) : Str × List Diagnostic :=
  match ext expr with
  | some val => (val, [])
  | none =>
    match stripPrefixStr "request.".data expr with
    | some rest =>
      (match request with
       | some req =>
         (match resolve_simple_path rest req with
          | some v => (value_to_string renderNum renderJson v, [])
          | none => ([], [w004_diagnostic expr]))
       | none => ([], [w004_diagnostic expr]))
    | none =>
      match stripPrefixStr "response.".data expr with
      | some rest =>
        (match response with
         | some resp =>
           (match resolve_simple_path rest resp with
            | some v => (value_to_string renderNum renderJson v, [])
            | none => ([], [w004_diagnostic expr]))
         | none => ([], [w004_diagnostic expr]))
      | none => ([], [w004_diagnostic expr])

/-- Decomposition of a successful `splitAtSub`. -/
theorem splitAtSub_eq_append {pat l b a : Str} (h : splitAtSub pat l = some (b, a)) :
    l = b ++ pat ++ a := by
  induction l generalizing b with
  | nil =>
    rw [splitAtSub] at h
    by_cases hp : pat = []
    · simp only [hp, if_pos rfl] at h
      injection h with h
      injection h with hb ha
      simp [hp, ← hb, ← ha]
    · simp [hp] at h
  | cons c rest ih =>
    rw [splitAtSub] at h
    by_cases hpre : pat.isPrefixOf (c :: rest)
    · simp only [if_pos hpre] at h
      injection h with h
      injection h with hb ha
      obtain ⟨t, ht⟩ := List.isPrefixOf_iff_prefix.mp hpre
      subst hb
      have hdrop : (c :: rest).drop pat.length = t := by
        rw [← ht]
        exact List.drop_left pat t
      rw [← ha, hdrop]
      simp [← ht]
    · simp only [if_neg hpre] at h
      cases hrec : splitAtSub pat rest with
      | none => rw [hrec] at h; cases h
      | some pair =>
        obtain ⟨bq, aq⟩ := pair
        rw [hrec] at h
        injection h with h
        injection h with hb ha
        subst ha
        rw [← hb]
        simp only [List.cons_append, List.append_assoc]
        have := ih hrec
        simp only [List.append_assoc] at this
        rw [← this]

/-- Length consequence of a successful `splitAtSub`. -/
theorem splitAtSub_length {pat l b a : Str} (h : splitAtSub pat l = some (b, a)) :
    l.length = b.length + pat.length + a.length := by
  have := splitAtSub_eq_append h
  subst this
  simp
  omega

/-- The scanning loop of `interpolate_template`: find each brace-pair
delimited span, resolve it, and continue after it; an unclosed open brace
is passed through literally and scanning continues. -/
def interpLoop (ext : Str → Option Str) (renderNum : ℚ → Str) (renderJson : Value → Str)
    (request response : Option Value) (remaining : Str) : Str × List Diagnostic :=
  match h1 : splitAtSub [lbC, lbC] remaining with
  | none => (remaining, [])
  | some (before, afterOpen) =>
    match h2 : splitAtSub [rbC, rbC] afterOpen with
    | none =>
      let rd := interpLoop ext renderNum renderJson request response afterOpen
      (before ++ [lbC, lbC] ++ rd.1, rd.2)
    | some (expr, rest) =>
      let sd := resolveExpr ext renderNum renderJson request response expr
      let rd := interpLoop ext renderNum renderJson request response rest
      (before ++ sd.1 ++ rd.1, sd.2 ++ rd.2)
termination_by remaining.length
decreasing_by
  · have := splitAtSub_length h1
    simp only [List.length_cons, List.length_nil] at this
    omega
  · have ha := splitAtSub_length h1
    have hb := splitAtSub_length h2
    simp only [List.length_cons, List.length_nil] at ha hb
    omega

/-- Resolves template expressions in a string: escape sequences are
replaced by a private sentinel, the unescaped spans are scanned and
substituted, and the sentinel is restored to a literal open brace pair. -/
def interpolate_template (renderNum : ℚ → Str) (renderJson : Value → Str)
    (template : Str) (extractors : Str → Option Str)
    (request response : Option Value) : Str × List Diagnostic :=
  let working := replaceAll [bsC, lbC, lbC] PLACEHOLDER template
  let rd := interpLoop extractors renderNum renderJson request response working
  (replaceAll PLACEHOLDER [lbC, lbC] rd.1, rd.2)

-- ─── §5.8 trigger state machine ─────────────────────────────────────────────

/-- Why a trigger advanced. -/
inductive AdvanceReason where
  | event_matched
  | timeout
deriving DecidableEq

/-- Result of evaluating a trigger against an event. -/
inductive TriggerResult where
  | advanced (reason : AdvanceReason)
  | notAdvanced
deriving DecidableEq

/-- A phase-advancement trigger. -/
structure Trigger where
  event : Option Str := none
  count : Option Int := none
  match_predicate : Option MatchPredicate := none
  after : Option Str := none

/-- A protocol event observed during execution. -/
structure ProtocolEvent where
  event_type : Str
  qualifier : Option Str := none
  content : Value

/-- Mutable per-trigger counting state threaded by the caller across
calls (present in the repository through its tests and §3 of the design:
a single u64 event counter). -/
structure TriggerState where
  event_count : Nat
deriving DecidableEq

/-- The protocol qualifier registry (an external lookup keyed by
protocol, base event and content) as a parameter. -/
abbrev QualifierResolver := Str → Str → Value → Option Str

/-- Splits an event type string on the first colon separator. -/
def parse_event_qualifier (event_string : Str) : Str × Option Str :=
  match splitAtSub [':'] event_string with
  | some (base, qualifier) => (base, some qualifier)
  | none => (event_string, none)

/-- The timeout test of step 1: the after field is set, parses, and the
elapsed time has reached it. -/
def trigger_timed_out (trigger : Trigger) (elapsed : Duration) : Bool :=
  match trigger.after with
  | some a =>
    match parse_duration a with
    | .ok timeout => decide (elapsed ≥ timeout)
    | .error _ => false
  | none => false

/-- Evaluates whether a trigger is satisfied for phase advancement.
State mutation is modelled by returning the updated state alongside the
result. -/
def evaluate_trigger (re : RegexImpl) (resolveQ : QualifierResolver)
    (trigger : Trigger) (event : Option ProtocolEvent) (elapsed : Duration)
    (state : TriggerState) (protocol : Str) : TriggerResult × TriggerState :=
  -- 1. check timeout
  if trigger_timed_out trigger elapsed then (.advanced .timeout, state)
  else
    match trigger.event, event with
    | some trigger_event, some ev =>
      -- 2. check event match
      let (trigger_base, trigger_qualifier) := parse_event_qualifier trigger_event
      let (event_base, _) := parse_event_qualifier ev.event_type
      if trigger_base ≠ event_base then (.notAdvanced, state)
      else
        -- 3. qualifier comparison (if the trigger specifies one):
        -- the event qualifier first, then content-based resolution
        let qualifierOk : Bool :=
          match trigger_qualifier with
          | none => true
          | some tq =>
            match ev.qualifier.or (resolveQ protocol event_base ev.content) with
            | some eq_ => eq_ = tq
            | none => false
        if !qualifierOk then (.notAdvanced, state)
        else
          -- 4. check match predicate if present
          let predicateOk : Bool :=
            match trigger.match_predicate with
            | none => true
            | some predicate => evaluate_predicate re predicate ev.content
          if !predicateOk then (.notAdvanced, state)
          else
            -- 5. full match: increment the count, then check the threshold
            let state' : TriggerState := { event_count := state.event_count + 1 }
            let required_count : Nat := ((trigger.count.getD 1).emod (2 ^ 64)).toNat
            if state'.event_count ≥ required_count then
              (.advanced .event_matched, state')
            else (.notAdvanced, state')
    | _, _ => (.notAdvanced, state)

-- ─── §4.5 compute_verdict ───────────────────────────────────────────────────

/-- Correlation logic for combining indicator verdicts. -/
inductive CorrelationLogic where
  | any
  | all
deriving DecidableEq

/-- Per-indicator evaluation result. -/
inductive IndicatorResult where
  | matched
  | notMatched
  | error
  | skipped
deriving DecidableEq

/-- Attack-level evaluation result. -/
inductive AttackResult where
  | exploited
  | notExploited
  | partialResult
  | error
deriving DecidableEq

/-- Verdict correlation configuration. -/
structure Correlation where
  logic : Option CorrelationLogic := none

/-- A detection indicator.  The verdict correlator reads only the id;
the surface name is kept as the one further mandatory field, and the
detection keys and metadata (not consulted by `compute_verdict`) are
omitted from this embedding. -/
structure Indicator where
  id : Option Str := none
  surface : Str := []

/-- The attack envelope, restricted to the fields `compute_verdict`
consults (identifier, declared indicators, correlation configuration);
the remaining metadata and execution fields are not read by the verdict
correlator and are omitted from this embedding. -/
structure Attack where
  id : Option Str := none
  indicators : Option (List Indicator) := none
  correlation : Option Correlation := none

/-- Result of evaluating a single indicator. -/
structure IndicatorVerdict where
  indicator_id : Str
  result : IndicatorResult
  timestamp : Option Str := none
  evidence : Option Str := none
  source : Option Str := none
deriving DecidableEq

/-- Summary counts of indicator evaluation results (i64 counters). -/
structure EvaluationSummary where
  matched : Int
  not_matched : Int
  error : Int
  skipped : Int
deriving DecidableEq

/-- Attack-level verdict computed from indicator verdicts. -/
structure AttackVerdict where
  attack_id : Option Str
  result : AttackResult
  indicator_verdicts : List IndicatorVerdict
  evaluation_summary : EvaluationSummary
  timestamp : Option Str := none
  source : Option Str := none

/-- The supplied verdicts, keyed by indicator id (a hash-map lookup). -/
abbrev VerdictMap := Str → Option IndicatorVerdict

/-- The collected verdict for one declared indicator: the supplied one,
or a synthetic skipped verdict when no entry is present. -/
def collectedVerdict (m : VerdictMap) (indicator : Indicator) : IndicatorVerdict :=
  let ind_id := indicator.id.getD []
  match m ind_id with
  | some v => v
  | none =>
    { indicator_id := ind_id, result := .skipped, timestamp := none,
      evidence := some "No evaluation result provided".data, source := none }

/-- The tally loop of `compute_verdict`: for each declared indicator add
one to the counter of its (collected) result kind and append the
collected verdict.  The source accumulates left to right; counter
addition commutes, so the recursion from the head yields the same
counters and the same verdict order. -/
def tallyIndicators (m : VerdictMap) :
    List Indicator → (Int × Int × Int × Int) × List IndicatorVerdict
  | [] => ((0, 0, 0, 0), [])
  | indicator :: rest =>
    let v := collectedVerdict m indicator
    let ((ma, nm, er, sk), vs) := tallyIndicators m rest
    match v.result with
    | .matched => ((ma + 1, nm, er, sk), v :: vs)
    | .notMatched => ((ma, nm + 1, er, sk), v :: vs)
    | .error => ((ma, nm, er + 1, sk), v :: vs)
    | .skipped => ((ma, nm, er, sk + 1), v :: vs)

/-- Computes the attack-level verdict from indicator verdicts under the
configured correlation logic. -/
def compute_verdict (attack : Attack) (indicator_verdicts : VerdictMap) : AttackVerdict :=
  match attack.indicators with
  | none =>
    { attack_id := attack.id, result := .error, indicator_verdicts := [],
      evaluation_summary := { matched := 0, not_matched := 0, error := 0, skipped := 0 },
      timestamp := none, source := none }
  | some indicators =>
    let logic := ((attack.correlation.bind (fun c => c.logic)).getD .any)
    let ((matched, not_matched, error, skipped), collected) :=
      tallyIndicators indicator_verdicts indicators
    let result :=
      match logic with
      | .any =>
        if error > 0 then AttackResult.error
        else if matched > 0 then AttackResult.exploited
        else AttackResult.notExploited
      | .all =>
        if error > 0 then AttackResult.error
        else if matched > 0 ∧ not_matched = 0 ∧ skipped = 0 then AttackResult.exploited
        else if matched > 0 then AttackResult.partialResult
        else AttackResult.notExploited
    { attack_id := attack.id, result := result, indicator_verdicts := collected,
      evaluation_summary :=
        { matched := matched, not_matched := not_matched, error := error, skipped := skipped },
      timestamp := none, source := none }

-- ─── Claim-side definitions ─────────────────────────────────────────────────

/-- The result a declared indicator is tallied as: its supplied verdict,
or skipped when the verdict map has no entry for its id. -/
def talliedResult (m : VerdictMap) (ind : Indicator) : IndicatorResult :=
  match m (ind.id.getD []) with
  | some v => v.result
  | none => .skipped

/-- Number of declared indicators tallied as a given result kind. -/
def resultCount (m : VerdictMap) (r : IndicatorResult) (inds : List Indicator) : Int :=
  ((inds.filter (fun i => decide (talliedResult m i = r))).length : Int)

/-- A one-indicator attack used by the closed witness below. -/
def witnessAttack : Attack :=
  { id := none, indicators := some [{ id := some ['a'] }], correlation := none }

/-- The full event-match test of steps 2 to 4: matching base types,
matching qualifier (when the trigger specifies one, resolved from the
event qualifier first and the registry second) and passing predicate. -/
def triggerEventMatches (re : RegexImpl) (resolveQ : QualifierResolver)
    (trigger : Trigger) (ev : ProtocolEvent) (protocol : Str) : Bool :=
  match trigger.event with
  | none => false
  | some te =>
    let (trigger_base, trigger_qualifier) := parse_event_qualifier te
    let (event_base, _) := parse_event_qualifier ev.event_type
    decide (trigger_base = event_base) &&
    (match trigger_qualifier with
     | none => true
     | some tq =>
       match ev.qualifier.or (resolveQ protocol event_base ev.content) with
       | some eq_ => decide (eq_ = tq)
       | none => false) &&
    (match trigger.match_predicate with
     | none => true
     | some predicate => evaluate_predicate re predicate ev.content)

/-- The trigger of the closed C2 witness: a qualified event name with a
required count of three. -/
def wTrig : Trigger := { event := some "tools/call:calc".data, count := some 3 }

/-- The qualifying event of the closed C2 witness. -/
def wEv : ProtocolEvent :=
  { event_type := "tools/call".data, qualifier := some "calc".data, content := .null }

/-- The non-qualifying event of the closed C2 witness. -/
def wEvX : ProtocolEvent := { event_type := "other".data, content := .null }

/-- A position of the path where an open bracket is not immediately
followed by star and close bracket (including a negative or numeric index
and a bracket cut short by the end of the path). -/
def BadBracketAt (path : Str) : Prop :=
  ∃ i, path[i]? = some '[' ∧ ¬(path[i + 1]? = some '*' ∧ path[i + 2]? = some ']')

/-- An expression that resolves neither through the extractor table nor
through a supplied request-rooted or response-rooted simple path. -/
def UnresolvedExpr (ext : Str → Option Str) (request response : Option Value)
    (expr : Str) : Prop :=
  ext expr = none ∧
  (∀ rest r, stripPrefixStr "request.".data expr = some rest → request = some r →
    resolve_simple_path rest r = none) ∧
  (∀ rest r, stripPrefixStr "response.".data expr = some rest → response = some r →
    resolve_simple_path rest r = none)

/-- The decimal rendering of a natural number, most significant digit
first (the shape of the numeral inside a duration string). -/
def natToDec (n : Nat) : Str :=
  if n < 10 then [Char.ofNat (48 + n)]
  else natToDec (n / 10) ++ [Char.ofNat (48 + n % 10)]
termination_by n
decreasing_by
  exact Nat.div_lt_self (by omega) (by omega)

-- ─── Verdict-correlation statements and proofs ──────────────────────────────

theorem talliedResult_eq_collected (m : VerdictMap) (ind : Indicator) :
    talliedResult m ind = (collectedVerdict m ind).result := by
  unfold talliedResult collectedVerdict
  cases h : m (ind.id.getD []) <;> simp [h]

theorem resultCount_cons (m : VerdictMap) (r : IndicatorResult)
    (ind : Indicator) (rest : List Indicator) :
    resultCount m r (ind :: rest) =
      (if talliedResult m ind = r then 1 else 0) + resultCount m r rest := by
  unfold resultCount
  by_cases h : talliedResult m ind = r <;> simp [h, List.filter_cons] <;> omega

/-- The tally loop computes exactly the per-kind counts and the collected
verdicts in declaration order. -/
theorem tallyIndicators_eq (m : VerdictMap) (inds : List Indicator) :
    tallyIndicators m inds =
      ((resultCount m .matched inds, resultCount m .notMatched inds,
        resultCount m .error inds, resultCount m .skipped inds),
       inds.map (collectedVerdict m)) := by
  induction inds with
  | nil => simp [tallyIndicators, resultCount]
  | cons ind rest ih =>
    rw [tallyIndicators, ih]
    have hts := talliedResult_eq_collected m ind
    rcases hres : (collectedVerdict m ind).result <;>
      simp only [hres, resultCount_cons, hts, List.map_cons] <;>
      simp [hres] <;> omega

theorem resultCount_total (m : VerdictMap) (inds : List Indicator) :
    resultCount m .matched inds + resultCount m .notMatched inds +
      resultCount m .error inds + resultCount m .skipped inds = inds.length := by
  induction inds with
  | nil => simp [resultCount]
  | cons ind rest ih =>
    simp only [resultCount_cons]
    rcases h : talliedResult m ind <;> simp [h] at ih ⊢ <;> omega

/-- C3: under `all` correlation logic, compute_verdict is `error` when any
tallied indicator verdict is `error`; otherwise `exploited` iff some
indicator matched and none was tallied not_matched or skipped; otherwise
`partial` iff some indicator matched; otherwise `not_exploited` — where a
declared indicator missing from the verdict map is tallied as skipped. -/
theorem compute_verdict_all_logic (attack : Attack) (m : VerdictMap)
    (inds : List Indicator) (hinds : attack.indicators = some inds)
    (hlogic : (attack.correlation.bind (fun c => c.logic)).getD .any = .all) :
    (compute_verdict attack m).result =
      (if 0 < resultCount m .error inds then .error
       else if 0 < resultCount m .matched inds ∧ resultCount m .notMatched inds = 0 ∧
           resultCount m .skipped inds = 0 then .exploited
       else if 0 < resultCount m .matched inds then .partialResult
       else .notExploited) := by
  unfold compute_verdict
  rw [hinds]
  simp only [tallyIndicators_eq, hlogic]

/-- Closed witness for `compute_verdict_all_logic`. -/
theorem compute_verdict_all_logic_witness :
    (compute_verdict
        { id := none,
          indicators := some [{ id := some ['a'] }, { id := some ['b'] }],
          correlation := some { logic := some .all } }
        (fun k => if k = ['a'] then some { indicator_id := ['a'], result := .matched }
                  else none)).result =
      (if 0 <
          resultCount
            (fun k => if k = ['a'] then some { indicator_id := ['a'], result := .matched }
                      else none)
            .error [{ id := some ['a'] }, { id := some ['b'] }] then .error
       else if 0 <
            resultCount
              (fun k => if k = ['a'] then some { indicator_id := ['a'], result := .matched }
                        else none)
              .matched [{ id := some ['a'] }, { id := some ['b'] }] ∧
          resultCount
              (fun k => if k = ['a'] then some { indicator_id := ['a'], result := .matched }
                        else none)
              .notMatched [{ id := some ['a'] }, { id := some ['b'] }] = 0 ∧
          resultCount
              (fun k => if k = ['a'] then some { indicator_id := ['a'], result := .matched }
                        else none)
              .skipped [{ id := some ['a'] }, { id := some ['b'] }] = 0 then .exploited
       else if 0 <
            resultCount
              (fun k => if k = ['a'] then some { indicator_id := ['a'], result := .matched }
                        else none)
              .matched [{ id := some ['a'] }, { id := some ['b'] }] then .partialResult
       else .notExploited) :=
  compute_verdict_all_logic _ _ _ rfl rfl

/-- C9: an attack whose declared indicator list is present but empty is
not_exploited with an all-zero summary, under any correlation config. -/
theorem compute_verdict_no_indicators (attack : Attack) (m : VerdictMap)
    (h : attack.indicators = some []) :
    (compute_verdict attack m).result = .notExploited ∧
    (compute_verdict attack m).evaluation_summary =
      { matched := 0, not_matched := 0, error := 0, skipped := 0 } := by
  unfold compute_verdict
  rw [h]
  rcases hl : (attack.correlation.bind (fun c => c.logic)).getD .any <;>
    simp [tallyIndicators, hl]

/-- Closed witness for `compute_verdict_no_indicators`. -/
theorem compute_verdict_no_indicators_witness :
    (compute_verdict { id := none, indicators := some [], correlation := none }
        (fun _ => none)).result = .notExploited ∧
    (compute_verdict { id := none, indicators := some [], correlation := none }
        (fun _ => none)).evaluation_summary =
      { matched := 0, not_matched := 0, error := 0, skipped := 0 } :=
  compute_verdict_no_indicators _ _ rfl

/-- C10: for a present indicator list, the verdict carries exactly one
collected verdict per declared indicator in declaration order, and the
four summary counts sum to the number of declared indicators. -/
theorem compute_verdict_summary_invariant (attack : Attack) (m : VerdictMap)
    (inds : List Indicator) (hinds : attack.indicators = some inds) :
    (compute_verdict attack m).indicator_verdicts = inds.map (collectedVerdict m) ∧
    (compute_verdict attack m).evaluation_summary.matched +
      (compute_verdict attack m).evaluation_summary.not_matched +
      (compute_verdict attack m).evaluation_summary.error +
      (compute_verdict attack m).evaluation_summary.skipped = inds.length := by
  unfold compute_verdict
  rw [hinds]
  simp only [tallyIndicators_eq]
  exact ⟨by simp, resultCount_total m inds⟩

/-- Closed witness for `compute_verdict_summary_invariant`. -/
theorem compute_verdict_summary_invariant_witness :
    (compute_verdict witnessAttack (fun _ => none)).indicator_verdicts =
      ([{ id := some ['a'] }] : List Indicator).map (collectedVerdict (fun _ => none)) ∧
    (compute_verdict witnessAttack (fun _ => none)).evaluation_summary.matched +
      (compute_verdict witnessAttack (fun _ => none)).evaluation_summary.not_matched +
      (compute_verdict witnessAttack (fun _ => none)).evaluation_summary.error +
      (compute_verdict witnessAttack (fun _ => none)).evaluation_summary.skipped =
      ([{ id := some ['a'] }] : List Indicator).length :=
  compute_verdict_summary_invariant _ _ _ rfl

-- ─── Numeric-comparison complement (C8) ─────────────────────────────────────

/-- C8: for every numeric subject and every threshold, the single-operator
conditions gt and lte evaluate to strict complements, and so do lt and
gte. -/
theorem numeric_operators_complementary (re : RegexImpl) (a b : ℚ) :
    evaluate_match_condition re { gt := some b } (.num a) =
      !evaluate_match_condition re { lte := some b } (.num a) ∧
    evaluate_match_condition re { lt := some b } (.num a) =
      !evaluate_match_condition re { gte := some b } (.num a) := by
  simp only [evaluate_match_condition, Value.asF64]
  constructor
  · by_cases h : a ≤ b
    · simp [h, not_lt.mpr h]
    · simp [h, lt_of_not_le h]
  · by_cases h : b ≤ a
    · simp [ge_iff_le, h, not_lt.mpr h]
    · simp [ge_iff_le, h, lt_of_not_le h]

-- ─── Predicate exists-operator statements (C4) ──────────────────────────────

theorem isSome_false_eq_none {α : Type} {o : Option α} (h : o.isSome = false) :
    o = none := by
  cases o <;> simp_all

theorem eval_match_condition_no_ops (re : RegexImpl) (cond : MatchCondition)
    (h : hasOtherOps cond = false) (val : Value) :
    evaluate_match_condition re { cond with «exists» := none } val = true := by
  simp only [hasOtherOps, Bool.or_eq_false_iff] at h
  obtain ⟨⟨⟨⟨⟨⟨⟨⟨h1, h2⟩, h3⟩, h4⟩, h5⟩, h6⟩, h7⟩, h8⟩, h9⟩ := h
  simp [evaluate_match_condition, isSome_false_eq_none h1, isSome_false_eq_none h2,
    isSome_false_eq_none h3, isSome_false_eq_none h4, isSome_false_eq_none h5,
    isSome_false_eq_none h6, isSome_false_eq_none h7, isSome_false_eq_none h8,
    isSome_false_eq_none h9]

/-- C4: a predicate entry with exists false and no other operators passes
exactly when the path fails to resolve; with other operators present it
is false outright; and exists true with no other operators passes exactly
when the path resolves. -/
theorem predicate_exists_semantics (re : RegexImpl) (path : Str)
    (cond : MatchCondition) (v : Value) :
    (cond.«exists» = some false → hasOtherOps cond = false →
      (evaluate_predicate re [(path, .condition cond)] v = true ↔
        resolve_simple_path path v = none)) ∧
    (cond.«exists» = some false → hasOtherOps cond = true →
      evaluate_predicate re [(path, .condition cond)] v = false) ∧
    (cond.«exists» = some true → hasOtherOps cond = false →
      (evaluate_predicate re [(path, .condition cond)] v = true ↔
        (resolve_simple_path path v).isSome = true)) := by
  refine ⟨fun hex hops => ?_, fun hex hops => ?_, fun hex hops => ?_⟩ <;>
    simp only [evaluate_predicate, List.all_cons, List.all_nil, Bool.and_true,
      evaluatePredicateEntry, hex]
  · cases hres : resolve_simple_path path v <;> simp [hres, hops]
  · cases hres : resolve_simple_path path v <;> simp [hres, hops]
  · cases hres : resolve_simple_path path v <;>
      simp [hres, evaluate_match_condition_excluding_exists,
        eval_match_condition_no_ops re cond hops]

/-- Closed witness for `predicate_exists_semantics`: an exists-false-only
condition over a missing key. -/
theorem predicate_exists_semantics_witness :
    evaluate_predicate (fun _ _ => none)
        [(['a'], .condition { «exists» := some false })] (.obj []) = true :=
  ((predicate_exists_semantics (fun _ _ => none) ['a']
      { «exists» := some false } (.obj [])).1 rfl rfl).mpr rfl

-- ─── Trigger statements (C5, C2) ────────────────────────────────────────────

/-- C5: a reached, parseable timeout advances with reason timeout for
every event, state and protocol — the timeout check short-circuits event
matching. -/
theorem trigger_timeout_short_circuit (re : RegexImpl) (resolveQ : QualifierResolver)
    (trigger : Trigger) (event : Option ProtocolEvent) (elapsed : Duration)
    (state : TriggerState) (protocol : Str) (a : Str) (t : Duration)
    (ha : trigger.after = some a) (hp : parse_duration a = .ok t)
    (he : t ≤ elapsed) :
    evaluate_trigger re resolveQ trigger event elapsed state protocol =
      (.advanced .timeout, state) := by
  have hto : trigger_timed_out trigger elapsed = true := by
    simp only [trigger_timed_out, ha, hp]
    simpa [ge_iff_le] using he
  unfold evaluate_trigger
  simp [hto]

/-- Closed witness for `trigger_timeout_short_circuit`. -/
theorem trigger_timeout_short_circuit_witness :
    evaluate_trigger (fun _ _ => none) (fun _ _ _ => none)
        { after := some "5s".data } none 5 ⟨0⟩ [] = (.advanced .timeout, ⟨0⟩) :=
  trigger_timeout_short_circuit _ _ _ _ _ _ _ "5s".data 5 rfl rfl (by decide)

theorem evaluate_trigger_step_match (re : RegexImpl) (resolveQ : QualifierResolver)
    (trigger : Trigger) (ev : ProtocolEvent) (elapsed : Duration)
    (k : Nat) (protocol : Str)
    (hto : trigger_timed_out trigger elapsed = false)
    (hm : triggerEventMatches re resolveQ trigger ev protocol = true) :
    evaluate_trigger re resolveQ trigger (some ev) elapsed ⟨k⟩ protocol =
      (if k + 1 ≥ ((trigger.count.getD 1).emod (2 ^ 64)).toNat then
        (.advanced .event_matched, ⟨k + 1⟩)
       else (.notAdvanced, ⟨k + 1⟩)) := by
  unfold evaluate_trigger
  simp only [hto, Bool.false_eq_true, if_false]
  unfold triggerEventMatches at hm
  cases hte : trigger.event with
  | none => simp only [hte] at hm; cases hm
  | some te =>
    simp only [hte] at hm ⊢
    rcases hpe : parse_event_qualifier te with ⟨tb, tq⟩
    rcases hpe2 : parse_event_qualifier ev.event_type with ⟨eb, eq2⟩
    simp only [hpe, hpe2] at hm ⊢
    simp only [Bool.and_eq_true, decide_eq_true_eq] at hm
    obtain ⟨⟨hbase, hqual⟩, hpred⟩ := hm
    subst hbase
    rw [if_neg (by simp)]
    simp only [hqual, hpred, Bool.not_true, Bool.false_eq_true, if_false]

theorem evaluate_trigger_step_no_match (re : RegexImpl) (resolveQ : QualifierResolver)
    (trigger : Trigger) (ev : ProtocolEvent) (elapsed : Duration)
    (state : TriggerState) (protocol : Str)
    (hto : trigger_timed_out trigger elapsed = false)
    (hm : triggerEventMatches re resolveQ trigger ev protocol = false) :
    evaluate_trigger re resolveQ trigger (some ev) elapsed state protocol =
      (.notAdvanced, state) := by
  unfold evaluate_trigger
  simp only [hto, Bool.false_eq_true, if_false]
  unfold triggerEventMatches at hm
  cases hte : trigger.event with
  | none => simp [hte]
  | some te =>
    simp only [hte] at hm ⊢
    rcases hpe : parse_event_qualifier te with ⟨tb, tq⟩
    rcases hpe2 : parse_event_qualifier ev.event_type with ⟨eb, eq2⟩
    simp only [hpe, hpe2] at hm ⊢
    by_cases hbase : tb = eb
    · subst hbase
      rw [if_neg (by simp)]
      simp only [eq_self_iff_true, decide_True, Bool.true_and,
        Bool.and_eq_false_iff] at hm
      cases tq with
      | none =>
        rcases hm with hqual | hpred
        · cases hqual
        · simp [hpred]
      | some tqv =>
        cases hr : ev.qualifier.or (resolveQ protocol tb ev.content) with
        | none => simp [hr]
        | some eqv =>
          simp only [hr] at hm
          rcases hm with hqual | hpred
          · simp [hr, hqual]
          · by_cases heq : eqv = tqv <;> simp [hr, heq, hpred]
    · simp [hbase]

/-- C2: with an event name set, count 3 and no applicable timeout, three
fully qualifying events advance only on the third call, with reason
event_matched and the counter reading 1, 2, 3 after the successive calls;
a non-qualifying event does not advance and leaves the counter unchanged. -/
theorem trigger_count_three (re : RegexImpl) (resolveQ : QualifierResolver)
    (trigger : Trigger) (te : Str) (ev1 ev2 ev3 evX : ProtocolEvent)
    (e1 e2 e3 eX : Duration) (p1 p2 p3 pX : Str)
    (htev : trigger.event = some te) (hcount : trigger.count = some 3)
    (ht1 : trigger_timed_out trigger e1 = false)
    (ht2 : trigger_timed_out trigger e2 = false)
    (ht3 : trigger_timed_out trigger e3 = false)
    (htX : trigger_timed_out trigger eX = false)
    (hq1 : triggerEventMatches re resolveQ trigger ev1 p1 = true)
    (hq2 : triggerEventMatches re resolveQ trigger ev2 p2 = true)
    (hq3 : triggerEventMatches re resolveQ trigger ev3 p3 = true)
    (hqX : triggerEventMatches re resolveQ trigger evX pX = false) :
    evaluate_trigger re resolveQ trigger (some ev1) e1 ⟨0⟩ p1 = (.notAdvanced, ⟨1⟩) ∧
    evaluate_trigger re resolveQ trigger (some ev2) e2 ⟨1⟩ p2 = (.notAdvanced, ⟨2⟩) ∧
    evaluate_trigger re resolveQ trigger (some ev3) e3 ⟨2⟩ p3 =
      (.advanced .event_matched, ⟨3⟩) ∧
    ∀ k : Nat, evaluate_trigger re resolveQ trigger (some evX) eX ⟨k⟩ pX =
      (.notAdvanced, ⟨k⟩) := by
  have hreq : ((trigger.count.getD 1).emod (2 ^ 64)).toNat = 3 := by
    rw [hcount]
    decide
  refine ⟨?_, ?_, ?_, fun k => ?_⟩
  · rw [evaluate_trigger_step_match re resolveQ trigger ev1 e1 0 p1 ht1 hq1, hreq]
    norm_num
  · rw [evaluate_trigger_step_match re resolveQ trigger ev2 e2 1 p2 ht2 hq2, hreq]
    norm_num
  · rw [evaluate_trigger_step_match re resolveQ trigger ev3 e3 2 p3 ht3 hq3, hreq]
    norm_num
  · exact evaluate_trigger_step_no_match re resolveQ trigger evX eX ⟨k⟩ pX htX hqX

/-- Closed witness for `trigger_count_three`. -/
theorem trigger_count_three_witness :
    evaluate_trigger (fun _ _ => none) (fun _ _ _ => none) wTrig (some wEv) 0 ⟨0⟩
      "mcp".data = (.notAdvanced, ⟨1⟩) ∧
    evaluate_trigger (fun _ _ => none) (fun _ _ _ => none) wTrig (some wEv) 0 ⟨1⟩
      "mcp".data = (.notAdvanced, ⟨2⟩) ∧
    evaluate_trigger (fun _ _ => none) (fun _ _ _ => none) wTrig (some wEv) 0 ⟨2⟩
      "mcp".data = (.advanced .event_matched, ⟨3⟩) ∧
    ∀ k : Nat, evaluate_trigger (fun _ _ => none) (fun _ _ _ => none) wTrig (some wEvX) 0
      ⟨k⟩ "mcp".data = (.notAdvanced, ⟨k⟩) :=
  trigger_count_three (fun _ _ => none) (fun _ _ _ => none) wTrig
    "tools/call:calc".data wEv wEv wEv wEvX 0 0 0 0
    "mcp".data "mcp".data "mcp".data "mcp".data
    rfl rfl rfl rfl rfl rfl rfl rfl rfl rfl

-- ─── Wildcard-path malformedness statements (C1) ────────────────────────────

/-- C1 counterexample: a bare bracket-star path is not a parse failure —
the splitter accepts it with an empty field name, fanning out the root
itself, so an array root yields a non-empty result. -/
theorem wildcard_bare_bracket_counterexample :
    resolve_wildcard_path "[*]".data (.arr [.null]) = [.null] ∧
    resolve_wildcard_path "[*]".data (.arr [.null]) ≠ [] := by
  refine ⟨rfl, ?_⟩
  rw [show resolve_wildcard_path "[*]".data (.arr [.null]) = [.null] from rfl]
  simp

theorem char_lbracket_ne_dot : ¬(('[' : Char) = '.') := by decide

theorem splitWildcardGo_badBracket (remaining current : Str)
    (segments : List WildcardSegment) (h : BadBracketAt remaining) :
    splitWildcardGo remaining current segments = none := by
  induction remaining, current, segments using splitWildcardGo.induct with
  | case1 segments =>
    obtain ⟨i, hi, _⟩ := h
    simp at hi
  | case2 current segments hcur =>
    obtain ⟨i, hi, _⟩ := h
    simp at hi
  | case3 rest current segments hcond =>
    obtain ⟨hc, hs⟩ := hcond
    subst hc
    subst hs
    rw [splitWildcardGo.eq_def]
    simp
  | case4 rest current segments hcond ih =>
    rw [splitWildcardGo.eq_def]
    simp only [if_pos rfl, if_neg hcond]
    apply ih
    obtain ⟨i, hi, hbad⟩ := h
    rcases i with _ | j
    · simp only [List.getElem?_cons_zero] at hi
      exact absurd hi (by decide)
    · exact ⟨j, by simpa using hi, by simpa using hbad⟩
  | case5 current segments c1 c2 h12 hne ih =>
    obtain ⟨h1, h2⟩ := h12
    subst h1
    subst h2
    obtain ⟨i, hi, hbad⟩ := h
    rcases i with _ | _ | _ | j
    · exact absurd ⟨rfl, rfl⟩ hbad
    · simp only [List.getElem?_cons_succ, List.getElem?_cons_zero] at hi
      exact absurd hi (by decide)
    · simp only [List.getElem?_cons_succ, List.getElem?_cons_zero] at hi
      exact absurd hi (by decide)
    · simp at hi
  | case6 current segments c1 c2 h12 rest3 hne ih =>
    obtain ⟨h1, h2⟩ := h12
    subst h1
    subst h2
    rw [splitWildcardGo.eq_def]
    simp [char_lbracket_ne_dot]
    apply ih
    obtain ⟨i, hi, hbad⟩ := h
    rcases i with _ | _ | _ | _ | j
    · exact absurd ⟨rfl, rfl⟩ hbad
    · simp only [List.getElem?_cons_succ, List.getElem?_cons_zero] at hi
      exact absurd hi (by decide)
    · simp only [List.getElem?_cons_succ, List.getElem?_cons_zero] at hi
      exact absurd hi (by decide)
    · simp only [List.getElem?_cons_succ, List.getElem?_cons_zero] at hi
      exact absurd hi (by decide)
    · exact ⟨j, by simpa using hi, by simpa using hbad⟩
  | case7 current segments c1 c2 h12 c3 rest3 hc3 hne =>
    obtain ⟨h1, h2⟩ := h12
    subst h1
    subst h2
    rw [splitWildcardGo.eq_def]
    simp [char_lbracket_ne_dot, hc3]
  | case8 current segments c1 c2 rest2 h12 hne =>
    rw [splitWildcardGo.eq_def]
    simp [char_lbracket_ne_dot, h12]
  | case9 rest current segments hshort hne =>
    rcases rest with _ | ⟨c1, _ | ⟨c2, rest2⟩⟩
    · rw [splitWildcardGo.eq_def]
      simp [char_lbracket_ne_dot]
    · rw [splitWildcardGo.eq_def]
      simp [char_lbracket_ne_dot]
    · exact (hshort c1 c2 rest2 rfl).elim
  | case10 c rest current segments hdot hbr ih =>
    rw [splitWildcardGo.eq_def]
    simp only [if_neg hdot, if_neg hbr]
    apply ih
    obtain ⟨i, hi, hbad⟩ := h
    rcases i with _ | j
    · simp only [List.getElem?_cons_zero] at hi
      injection hi with hi
      exact absurd hi.symm (fun hh => hbr hh.symm)
    · exact ⟨j, by simpa using hi, by simpa using hbad⟩

/-- C1 amended: a leading dot, and every open bracket not immediately
followed by star and close bracket (in particular a negative or numeric
index), make resolve_wildcard_path return the empty list for every value
tree; a bracket-star before any field name, however, is accepted — the
empty name selects the current value itself, which is fanned out when it
is an array. -/
theorem wildcard_malformed_paths_empty :
    (∀ (rest : Str) (v : Value), resolve_wildcard_path ('.' :: rest) v = []) ∧
    (∀ (path : Str) (v : Value), BadBracketAt path →
      resolve_wildcard_path path v = []) := by
  constructor
  · intro rest v
    rw [resolve_wildcard_path, if_neg (by simp), split_wildcard_segments,
      splitWildcardGo.eq_def]
    simp
  · intro path v h
    have hne : path ≠ [] := by
      obtain ⟨i, hi, _⟩ := h
      intro heq
      subst heq
      simp at hi
    rw [resolve_wildcard_path, if_neg hne, split_wildcard_segments,
      splitWildcardGo_badBracket path [] [] h]

/-- Closed witness for `wildcard_malformed_paths_empty`: a numeric index. -/
theorem wildcard_malformed_paths_empty_witness :
    resolve_wildcard_path "a[0]".data (.obj [(['a'], .arr [.null])]) = [] :=
  wildcard_malformed_paths_empty.2 "a[0]".data (.obj [(['a'], .arr [.null])])
    ⟨1, rfl, by simp⟩

-- ─── Template-interpolation statements (C6) ─────────────────────────────────

theorem isPrefixOf_ne_head {c x : Char} {p rest : Str} (h : ¬c = x) :
    ((c :: p).isPrefixOf (x :: rest)) = false := by
  simp [List.isPrefixOf_cons₂, h]

theorem replaceAll_not_occur {c : Char} {p rep l : Str} (h : c ∉ l) :
    replaceAll (c :: p) rep l = l := by
  induction l with
  | nil =>
    rw [replaceAll.eq_def]
    simp
  | cons x rest ih =>
    have hcx : ¬c = x := by
      intro hh
      exact h (by simp [hh])
    have hrest : c ∉ rest := fun hm => h (List.mem_cons_of_mem _ hm)
    rw [replaceAll.eq_def]
    simp [isPrefixOf_ne_head hcx, ih hrest]

theorem replaceAll_not_occur2 (pat : Str) (c : Char) {rep l : Str}
    (hp : pat.head? = some c) (h : c ∉ l) : replaceAll pat rep l = l := by
  cases pat with
  | nil => cases hp
  | cons x p =>
    injection hp with hp
    subst hp
    exact replaceAll_not_occur h

theorem replaceAll_head_match {pat rep l : Str} (hne : pat ≠ [])
    (hpre : pat.isPrefixOf l = true) (hl : l ≠ []) :
    replaceAll pat rep l = rep ++ replaceAll pat rep (l.drop pat.length) := by
  cases l with
  | nil => exact absurd rfl hl
  | cons x rest =>
    rw [replaceAll.eq_def]
    simp [hne, hpre]

theorem splitAtSub_not_occur {c : Char} {p l : Str} (h : c ∉ l) :
    splitAtSub (c :: p) l = none := by
  induction l with
  | nil => rfl
  | cons x rest ih =>
    have hcx : ¬c = x := by
      intro hh
      exact h (by simp [hh])
    have hrest : c ∉ rest := fun hm => h (List.mem_cons_of_mem _ hm)
    rw [splitAtSub]
    simp [isPrefixOf_ne_head hcx, ih hrest]

theorem splitAtSub_double {c : Char} {b a : Str} (hb : c ∉ b) :
    splitAtSub [c, c] (b ++ c :: c :: a) = some (b, a) := by
  induction b with
  | nil =>
    rw [List.nil_append, splitAtSub]
    simp [List.isPrefixOf_cons₂]
  | cons x rest ih =>
    have hcx : ¬c = x := by
      intro hh
      exact hb (by simp [hh])
    have hrest : c ∉ rest := fun hm => hb (List.mem_cons_of_mem _ hm)
    rw [List.cons_append, splitAtSub]
    simp [isPrefixOf_ne_head hcx, ih hrest]

theorem interpLoop_none (ext : Str → Option Str) (rn : ℚ → Str) (rj : Value → Str)
    (req resp : Option Value) {remaining : Str}
    (h : splitAtSub [lbC, lbC] remaining = none) :
    interpLoop ext rn rj req resp remaining = (remaining, []) := by
  rw [interpLoop.eq_def]
  split
  · rfl
  · rename_i b a heq
    rw [h] at heq
    cases heq

theorem interpLoop_span (ext : Str → Option Str) (rn : ℚ → Str) (rj : Value → Str)
    (req resp : Option Value) {remaining before afterOpen expr rest : Str}
    (h1 : splitAtSub [lbC, lbC] remaining = some (before, afterOpen))
    (h2 : splitAtSub [rbC, rbC] afterOpen = some (expr, rest)) :
    interpLoop ext rn rj req resp remaining =
      (before ++ (resolveExpr ext rn rj req resp expr).1 ++
        (interpLoop ext rn rj req resp rest).1,
       (resolveExpr ext rn rj req resp expr).2 ++
        (interpLoop ext rn rj req resp rest).2) := by
  rw [interpLoop.eq_def]
  split
  · rename_i heq
    rw [h1] at heq
    cases heq
  · rename_i b a heq
    rw [h1] at heq
    injection heq with heq
    injection heq with hb ha
    subst hb
    subst ha
    split
    · rename_i heq2
      rw [h2] at heq2
      cases heq2
    · rename_i e r heq2
      rw [h2] at heq2
      injection heq2 with heq2
      injection heq2 with he hr
      subst he
      subst hr
      rfl

theorem resolveExpr_unresolved {ext : Str → Option Str} {rn : ℚ → Str} {rj : Value → Str}
    {req resp : Option Value} {expr : Str} (h : UnresolvedExpr ext req resp expr) :
    resolveExpr ext rn rj req resp expr = ([], [w004_diagnostic expr]) := by
  obtain ⟨h1, h2, h3⟩ := h
  unfold resolveExpr
  rw [h1]
  cases hs : stripPrefixStr "request.".data expr with
  | some rest =>
    cases hr : req with
    | none => rfl
    | some r => simp [h2 rest r hs hr]
  | none =>
    cases hs2 : stripPrefixStr "response.".data expr with
    | some rest =>
      cases hr : resp with
      | none => rfl
      | some r => simp [hs, h3 rest r hs2 hr]
    | none => rfl

/-- C6: an escaped open brace survives interpolation verbatim — the
template backslash-brace-brace-x-brace-brace interpolates to exactly
brace-brace-x-brace-brace with no diagnostics, for every extractor table
and request and response tree; and a template carrying one unresolvable
unescaped span between otherwise plain text interpolates to the
surrounding text with the span replaced by the empty string and exactly
one W-004 diagnostic naming the expression. -/
theorem interpolate_escaped_and_unresolved (rn : ℚ → Str) (rj : Value → Str)
    (ext : Str → Option Str) (req resp : Option Value) :
    interpolate_template rn rj [bsC, lbC, lbC, 'x', rbC, rbC] ext req resp =
      ([lbC, lbC, 'x', rbC, rbC], []) ∧
    (∀ pre expr post : Str,
      bsC ∉ pre → bsC ∉ expr → bsC ∉ post →
      lbC ∉ pre → lbC ∉ post → rbC ∉ expr →
      nulC ∉ pre → nulC ∉ post →
      UnresolvedExpr ext req resp expr →
      interpolate_template rn rj (pre ++ [lbC, lbC] ++ expr ++ [rbC, rbC] ++ post)
          ext req resp =
        (pre ++ post, [w004_diagnostic expr])) := by
  constructor
  · simp only [interpolate_template]
    have hesc : replaceAll [bsC, lbC, lbC] PLACEHOLDER [bsC, lbC, lbC, 'x', rbC, rbC] =
        PLACEHOLDER ++ ['x', rbC, rbC] := by
      rw [replaceAll_head_match (by simp) (by decide) (by simp),
        show ([bsC, lbC, lbC, 'x', rbC, rbC] : Str).drop [bsC, lbC, lbC].length =
          ['x', rbC, rbC] from rfl,
        replaceAll_not_occur (by decide)]
    rw [hesc, interpLoop_none ext rn rj req resp (by decide)]
    have hrest : replaceAll PLACEHOLDER [lbC, lbC] (PLACEHOLDER ++ ['x', rbC, rbC]) =
        [lbC, lbC] ++ ['x', rbC, rbC] := by
      rw [replaceAll_head_match (by decide) (by decide) (by decide),
        show (PLACEHOLDER ++ ['x', rbC, rbC]).drop PLACEHOLDER.length =
          ['x', rbC, rbC] from rfl,
        replaceAll_not_occur2 PLACEHOLDER nulC rfl (by decide)]
    simp [hrest]
  · intro pre expr post hb1 hb2 hb3 hl1 hl3 hr2 hn1 hn3 hunres
    simp only [interpolate_template]
    have hshape : pre ++ [lbC, lbC] ++ expr ++ [rbC, rbC] ++ post =
        pre ++ lbC :: lbC :: (expr ++ rbC :: rbC :: post) := by
      simp
    have hbs : bsC ∉ pre ++ [lbC, lbC] ++ expr ++ [rbC, rbC] ++ post := by
      simp [List.mem_append, hb1, hb2, hb3,
        (by decide : ¬(bsC = lbC)), (by decide : ¬(bsC = rbC))]
    rw [replaceAll_not_occur hbs, hshape,
      interpLoop_span ext rn rj req resp (splitAtSub_double hl1) (splitAtSub_double hr2),
      interpLoop_none ext rn rj req resp (splitAtSub_not_occur hl3),
      resolveExpr_unresolved hunres]
    have hrepl : replaceAll PLACEHOLDER [lbC, lbC] (pre ++ post) = pre ++ post :=
      replaceAll_not_occur2 PLACEHOLDER nulC rfl (by simp [hn1, hn3])
    simp [hrepl]

/-- Closed witness for `interpolate_escaped_and_unresolved`. -/
theorem interpolate_escaped_and_unresolved_witness :
    interpolate_template (fun _ => []) (fun _ => []) [bsC, lbC, lbC, 'x', rbC, rbC]
      (fun _ => none) none none = ([lbC, lbC, 'x', rbC, rbC], []) ∧
    interpolate_template (fun _ => []) (fun _ => [])
      ([] ++ [lbC, lbC] ++ ['x'] ++ [rbC, rbC] ++ []) (fun _ => none) none none =
      ([] ++ [], [w004_diagnostic ['x']]) :=
  by
  refine ⟨(interpolate_escaped_and_unresolved (fun _ => []) (fun _ => [])
      (fun _ => none) none none).1,
    (interpolate_escaped_and_unresolved (fun _ => []) (fun _ => [])
      (fun _ => none) none none).2 [] ['x'] []
      (by decide) (by decide) (by decide) (by decide) (by decide) (by decide)
      (by decide) (by decide) ⟨rfl, ?_, ?_⟩⟩
  · intro rest r hs _
    rw [show stripPrefixStr "request.".data ['x'] = none from by decide] at hs
    cases hs
  · intro rest r hs _
    rw [show stripPrefixStr "response.".data ['x'] = none from by decide] at hs
    cases hs

-- ─── Duration-grammar equivalence statements (C7) ───────────────────────────

theorem digit_char_toNat {d : Nat} (hd : d < 10) :
    (Char.ofNat (48 + d)).toNat = 48 + d := by
  interval_cases d <;> decide

theorem digit_char_bounds {d : Nat} (hd : d < 10) :
    '0' ≤ Char.ofNat (48 + d) ∧ Char.ofNat (48 + d) ≤ '9' := by
  interval_cases d <;> decide

theorem natToDec_ne_nil (n : Nat) : natToDec n ≠ [] := by
  rw [natToDec.eq_def]
  split <;> simp

theorem natToDec_digits (n : Nat) : ∀ c ∈ natToDec n, '0' ≤ c ∧ c ≤ '9' := by
  induction n using natToDec.induct with
  | case1 n hlt =>
    intro c hc
    rw [natToDec, if_pos hlt] at hc
    simp at hc
    subst hc
    exact digit_char_bounds hlt
  | case2 n hge ih =>
    intro c hc
    rw [natToDec, if_neg hge] at hc
    rcases List.mem_append.mp hc with hc | hc
    · exact ih c hc
    · simp at hc
      subst hc
      exact digit_char_bounds (Nat.mod_lt _ (by omega))

theorem notMem_natToDec {x : Char} (hx : ¬('0' ≤ x ∧ x ≤ '9')) (n : Nat) :
    x ∉ natToDec n :=
  fun hm => hx (natToDec_digits n x hm)

theorem natToDec_foldl (n : Nat) : ∀ a : Nat,
    (natToDec n).foldl (fun acc c => acc * 10 + (c.toNat - 48)) a =
      a * 10 ^ (natToDec n).length + n := by
  induction n using natToDec.induct with
  | case1 n hlt =>
    intro a
    rw [natToDec, if_pos hlt]
    simp [digit_char_toNat hlt]
  | case2 n hge ih =>
    intro a
    rw [natToDec, if_neg hge]
    rw [List.foldl_append, ih]
    have hd : (Char.ofNat (48 + n % 10)).toNat = 48 + n % 10 :=
      digit_char_toNat (Nat.mod_lt _ (by omega))
    simp only [List.foldl_cons, List.foldl_nil, hd, List.length_append,
      List.length_cons, List.length_nil, pow_succ]
    have hmod : 10 * (n / 10) + n % 10 = n := Nat.div_add_mod n 10
    ring_nf
    omega

theorem parse_u64_natToDec (n : Nat) :
    parse_u64 (natToDec n) = if n < 2 ^ 64 then some n else none := by
  obtain ⟨c, t, hct⟩ : ∃ c t, natToDec n = c :: t := by
    cases h : natToDec n with
    | nil => exact absurd h (natToDec_ne_nil n)
    | cons c t => exact ⟨c, t, rfl⟩
  have hdig := natToDec_digits n
  have hplus : ¬((natToDec n).head? = some '+') := by
    rw [hct]
    simp only [List.head?_cons, Option.some.injEq]
    intro hc
    have := hdig c (by rw [hct]; simp)
    rw [hc] at this
    exact absurd this (by decide)
  unfold parse_u64
  rw [if_neg hplus]
  rw [if_neg (by rw [hct]; simp)]
  rw [if_pos (by simp only [List.all_eq_true, decide_eq_true_eq]; exact hdig)]
  rw [natToDec_foldl n 0]
  simp

theorem splitAtSub_single {c : Char} {b a : Str} (hb : c ∉ b) :
    splitAtSub [c] (b ++ c :: a) = some (b, a) := by
  induction b with
  | nil =>
    rw [List.nil_append, splitAtSub]
    simp [List.isPrefixOf_cons₂]
  | cons x rest ih =>
    have hcx : ¬c = x := by
      intro hh
      exact hb (by simp [hh])
    have hrest : c ∉ rest := fun hm => hb (List.mem_cons_of_mem _ hm)
    rw [List.cons_append, splitAtSub]
    simp [isPrefixOf_ne_head hcx, ih hrest]

theorem natToDec_cons (n : Nat) :
    ∃ c t, natToDec n = c :: t ∧ ('0' ≤ c ∧ c ≤ '9') := by
  cases h : natToDec n with
  | nil => exact absurd h (natToDec_ne_nil n)
  | cons c t => exact ⟨c, t, rfl, natToDec_digits n c (by rw [h]; simp)⟩

theorem natToDec_append_head_not {x : Char} (hx : ¬('0' ≤ x ∧ x ≤ '9'))
    (n : Nat) (rest : Str) : ¬((natToDec n ++ rest).head? = some x) := by
  obtain ⟨c, t, hct, hdig⟩ := natToDec_cons n
  rw [hct]
  simp only [List.cons_append, List.head?_cons, Option.some.injEq]
  intro hcx
  subst hcx
  exact hx hdig

/-- Evaluation of the shorthand grammar on a rendered numeral and a
valid unit letter. -/
theorem parse_duration_shorthand_eval (n : Nat) (u : Char)
    (hu : u = 's' ∨ u = 'm' ∨ u = 'h' ∨ u = 'd') :
    (parse_duration (natToDec n ++ [u])).toOption =
      if n < 2 ^ 64 then
        (if u = 's' then some n
         else if u = 'm' then checkedMul n 60
         else if u = 'h' then checkedMul n 3600
         else checkedMul n 86400)
      else none := by
  have hPne : ¬((natToDec n ++ [u]).head? = some 'P') :=
    natToDec_append_head_not (by decide) n [u]
  have hne : ¬((natToDec n ++ [u]).isEmpty = true) := by
    simp
  have hlen : ¬((natToDec n ++ [u]).length < 2) := by
    have := natToDec_ne_nil n
    have : 0 < (natToDec n).length := List.length_pos.mpr this
    simp only [List.length_append, List.length_cons, List.length_nil]
    omega
  unfold parse_duration
  rw [if_neg hne, if_neg hPne]
  unfold parse_shorthand_duration
  rw [if_neg hlen, List.dropLast_concat, List.getLast?_concat]
  simp only []
  rw [parse_u64_natToDec]
  by_cases hn : n < 2 ^ 64
  · rw [if_pos hn, if_pos hn]
    rcases hu with h | h | h | h <;> subst h
    · simp [Except.toOption]
    · simp only [if_neg (by decide : ¬(('m' : Char) = 's')), if_pos rfl]
      cases hcm : checkedMul n 60 <;> simp [Except.toOption]
    · simp only [if_neg (by decide : ¬(('h' : Char) = 's')),
        if_neg (by decide : ¬(('h' : Char) = 'm')), if_pos rfl]
      cases hcm : checkedMul n 3600 <;> simp [Except.toOption]
    · simp only [if_neg (by decide : ¬(('d' : Char) = 's')),
        if_neg (by decide : ¬(('d' : Char) = 'm')),
        if_neg (by decide : ¬(('d' : Char) = 'h')), if_pos rfl]
      cases hcm : checkedMul n 86400 <;> simp [Except.toOption]
  · rw [if_neg hn, if_neg hn]
    simp [Except.toOption]

/-- Evaluation of the ISO time grammar PT followed by a rendered numeral
and one of the H, M, S unit letters. -/
theorem parse_duration_iso_time_eval (n : Nat) (u : Char) (mult : Nat)
    (hu : (u = 'H' ∧ mult = 3600) ∨ (u = 'M' ∧ mult = 60) ∨ (u = 'S' ∧ mult = 1)) :
    (parse_duration ('P' :: 'T' :: (natToDec n ++ [u]))).toOption =
      if n < 2 ^ 64 then checkedMul n mult else none := by
  rcases hu with ⟨hu, hm⟩ | ⟨hu, hm⟩ | ⟨hu, hm⟩ <;> subst hu <;> subst hm
  · have hT : splitAtSub ['T'] ('T' :: (natToDec n ++ ['H'])) =
        some ([], natToDec n ++ ['H']) := by
      simpa using @splitAtSub_single 'T' [] (natToDec n ++ ['H']) (by simp)
    have hfind : splitAtSub ['H'] (natToDec n ++ ['H']) = some (natToDec n, []) := by
      simpa using @splitAtSub_single 'H' (natToDec n) [] (notMem_natToDec (by decide) n)
    unfold parse_duration
    rw [if_neg (by simp), if_pos (by simp)]
    unfold parse_iso_duration
    rw [show ('P' :: 'T' :: (natToDec n ++ ['H'])).drop 1 =
      'T' :: (natToDec n ++ ['H']) from rfl]
    simp only [hT]
    simp only [isoDateComponent, List.isEmpty_nil, if_true]
    rw [if_neg (show ¬(List.isEmpty (natToDec n ++ ['H']) = true) by simp)]
    simp only [isoTimeComponent, hfind]
    rw [parse_u64_natToDec]
    by_cases hn : n < 2 ^ 64
    · rw [if_pos hn, if_pos hn]
      simp only []
      cases hcm : (checkedMul n 3600).bind (checkedAdd 0) with
      | none =>
        simp only [hcm]
        show (none : Option Nat) = checkedMul n 3600
        simp only [checkedMul, checkedAdd] at hcm
        by_cases ho : n * 3600 < 2 ^ 64
        · rw [if_pos ho, Option.some_bind, Nat.zero_add, if_pos ho] at hcm
          cases hcm
        · rw [show checkedMul n 3600 = none from by unfold checkedMul; rw [if_neg ho]]
      | some v =>
        simp only [hcm]
        show some v = checkedMul n 3600
        simp only [checkedMul, checkedAdd] at hcm
        by_cases ho : n * 3600 < 2 ^ 64
        · rw [if_pos ho, Option.some_bind, Nat.zero_add, if_pos ho] at hcm
          injection hcm with hcm
          subst hcm
          rw [show checkedMul n 3600 = some (n * 3600) from by
            unfold checkedMul; rw [if_pos ho]]
        · rw [if_neg ho, Option.none_bind] at hcm
          cases hcm
    · rw [if_neg hn, if_neg hn]
      simp [Except.toOption]
  · have hT : splitAtSub ['T'] ('T' :: (natToDec n ++ ['M'])) =
        some ([], natToDec n ++ ['M']) := by
      simpa using @splitAtSub_single 'T' [] (natToDec n ++ ['M']) (by simp)
    have hHn : splitAtSub ['H'] (natToDec n ++ ['M']) = none :=
      splitAtSub_not_occur (by
        simp only [List.mem_append, List.mem_singleton]
        rintro (hm | hm)
        · exact notMem_natToDec (by decide) n hm
        · exact absurd hm (by decide))
    have hfind : splitAtSub ['M'] (natToDec n ++ ['M']) = some (natToDec n, []) := by
      simpa using @splitAtSub_single 'M' (natToDec n) [] (notMem_natToDec (by decide) n)
    unfold parse_duration
    rw [if_neg (by simp), if_pos (by simp)]
    unfold parse_iso_duration
    rw [show ('P' :: 'T' :: (natToDec n ++ ['M'])).drop 1 =
      'T' :: (natToDec n ++ ['M']) from rfl]
    simp only [hT]
    simp only [isoDateComponent, List.isEmpty_nil, if_true]
    rw [if_neg (show ¬(List.isEmpty (natToDec n ++ ['M']) = true) by simp)]
    simp only [isoTimeComponent, hHn, hfind]
    rw [parse_u64_natToDec]
    by_cases hn : n < 2 ^ 64
    · rw [if_pos hn, if_pos hn]
      simp only []
      cases hcm : (checkedMul n 60).bind (checkedAdd 0) with
      | none =>
        simp only [hcm]
        show (none : Option Nat) = checkedMul n 60
        simp only [checkedMul, checkedAdd] at hcm
        by_cases ho : n * 60 < 2 ^ 64
        · rw [if_pos ho, Option.some_bind, Nat.zero_add, if_pos ho] at hcm
          cases hcm
        · rw [show checkedMul n 60 = none from by unfold checkedMul; rw [if_neg ho]]
      | some v =>
        simp only [hcm]
        show some v = checkedMul n 60
        simp only [checkedMul, checkedAdd] at hcm
        by_cases ho : n * 60 < 2 ^ 64
        · rw [if_pos ho, Option.some_bind, Nat.zero_add, if_pos ho] at hcm
          injection hcm with hcm
          subst hcm
          rw [show checkedMul n 60 = some (n * 60) from by
            unfold checkedMul; rw [if_pos ho]]
        · rw [if_neg ho, Option.none_bind] at hcm
          cases hcm
    · rw [if_neg hn, if_neg hn]
      simp [Except.toOption]
  · have hT : splitAtSub ['T'] ('T' :: (natToDec n ++ ['S'])) =
        some ([], natToDec n ++ ['S']) := by
      simpa using @splitAtSub_single 'T' [] (natToDec n ++ ['S']) (by simp)
    have hHn : splitAtSub ['H'] (natToDec n ++ ['S']) = none :=
      splitAtSub_not_occur (by
        simp only [List.mem_append, List.mem_singleton]
        rintro (hm | hm)
        · exact notMem_natToDec (by decide) n hm
        · exact absurd hm (by decide))
    have hMn : splitAtSub ['M'] (natToDec n ++ ['S']) = none :=
      splitAtSub_not_occur (by
        simp only [List.mem_append, List.mem_singleton]
        rintro (hm | hm)
        · exact notMem_natToDec (by decide) n hm
        · exact absurd hm (by decide))
    have hfind : splitAtSub ['S'] (natToDec n ++ ['S']) = some (natToDec n, []) := by
      simpa using @splitAtSub_single 'S' (natToDec n) [] (notMem_natToDec (by decide) n)
    unfold parse_duration
    rw [if_neg (by simp), if_pos (by simp)]
    unfold parse_iso_duration
    rw [show ('P' :: 'T' :: (natToDec n ++ ['S'])).drop 1 =
      'T' :: (natToDec n ++ ['S']) from rfl]
    simp only [hT]
    simp only [isoDateComponent, List.isEmpty_nil, if_true]
    rw [if_neg (show ¬(List.isEmpty (natToDec n ++ ['S']) = true) by simp)]
    simp only [isoTimeComponent, hHn, hMn, hfind]
    rw [parse_u64_natToDec]
    by_cases hn : n < 2 ^ 64
    · rw [if_pos hn, if_pos hn]
      simp only []
      cases hcm : (checkedMul n 1).bind (checkedAdd 0) with
      | none =>
        simp only [hcm]
        show (none : Option Nat) = checkedMul n 1
        simp only [checkedMul, checkedAdd] at hcm
        by_cases ho : n * 1 < 2 ^ 64
        · rw [if_pos ho, Option.some_bind, Nat.zero_add, if_pos ho] at hcm
          cases hcm
        · rw [show checkedMul n 1 = none from by unfold checkedMul; rw [if_neg ho]]
      | some v =>
        simp only [hcm]
        show some v = checkedMul n 1
        simp only [checkedMul, checkedAdd] at hcm
        by_cases ho : n * 1 < 2 ^ 64
        · rw [if_pos ho, Option.some_bind, Nat.zero_add, if_pos ho] at hcm
          injection hcm with hcm
          subst hcm
          rw [show checkedMul n 1 = some (n * 1) from by
            unfold checkedMul; rw [if_pos ho]]
        · rw [if_neg ho, Option.none_bind] at hcm
          cases hcm
    · rw [if_neg hn, if_neg hn]
      simp [Except.toOption]

/-- Evaluation of the ISO date grammar P followed by a rendered numeral
and the D unit letter. -/
theorem parse_duration_iso_date_eval (n : Nat) :
    (parse_duration ('P' :: (natToDec n ++ ['D']))).toOption =
      if n < 2 ^ 64 then checkedMul n 86400 else none := by
  have hTn : splitAtSub ['T'] (natToDec n ++ ['D']) = none :=
    splitAtSub_not_occur (by
      simp only [List.mem_append, List.mem_singleton]
      rintro (hm | hm)
      · exact notMem_natToDec (by decide) n hm
      · exact absurd hm (by decide))
  unfold parse_duration
  rw [if_neg (by simp), if_pos (by simp)]
  unfold parse_iso_duration
  rw [show ('P' :: (natToDec n ++ ['D'])).drop 1 = natToDec n ++ ['D'] from rfl]
  simp only [hTn]
  simp only [isoDateComponent]
  rw [if_neg (show ¬(List.isEmpty (natToDec n ++ ['D']) = true) by simp)]
  simp only [show stripSuffixChar 'D' (natToDec n ++ ['D']) = some (natToDec n) from by
    simp [stripSuffixChar, List.getLast?_concat, List.dropLast_concat]]
  rw [parse_u64_natToDec]
  by_cases hn : n < 2 ^ 64
  · rw [if_pos hn, if_pos hn]
    simp only []
    cases hcm : (checkedMul n 86400).bind (checkedAdd 0) with
    | none =>
      simp only [hcm]
      show (none : Option Nat) = checkedMul n 86400
      simp only [checkedMul, checkedAdd] at hcm
      by_cases ho : n * 86400 < 2 ^ 64
      · rw [if_pos ho, Option.some_bind, Nat.zero_add, if_pos ho] at hcm
        cases hcm
      · rw [show checkedMul n 86400 = none from by unfold checkedMul; rw [if_neg ho]]
    | some v =>
      simp only [hcm]
      rw [if_neg (show ¬(List.isEmpty (natToDec n ++ ['D']) = true) by simp)]
      show some v = checkedMul n 86400
      simp only [checkedMul, checkedAdd] at hcm
      by_cases ho : n * 86400 < 2 ^ 64
      · rw [if_pos ho, Option.some_bind, Nat.zero_add, if_pos ho] at hcm
        injection hcm with hcm
        subst hcm
        rw [show checkedMul n 86400 = some (n * 86400) from by
          unfold checkedMul; rw [if_pos ho]]
      · rw [if_neg ho, Option.none_bind] at hcm
        cases hcm
  · rw [if_neg hn, if_neg hn]
    simp [Except.toOption]

/-- C7: for every natural number, the shorthand and ISO grammars give the
same parse outcome for seconds, minutes, hours and days — equal durations
on success and agreement on overflow errors — and the inputs PT and P1DT
are parse errors. -/
theorem duration_grammar_equivalences (n : Nat) :
    (parse_duration ("PT".data ++ natToDec n ++ "S".data)).toOption =
      (parse_duration (natToDec n ++ "s".data)).toOption ∧
    (parse_duration ("PT".data ++ natToDec n ++ "M".data)).toOption =
      (parse_duration (natToDec n ++ "m".data)).toOption ∧
    (parse_duration ("PT".data ++ natToDec n ++ "H".data)).toOption =
      (parse_duration (natToDec n ++ "h".data)).toOption ∧
    (parse_duration ("P".data ++ natToDec n ++ "D".data)).toOption =
      (parse_duration (natToDec n ++ "d".data)).toOption ∧
    (parse_duration "PT".data).toOption = none ∧
    (parse_duration "P1DT".data).toOption = none := by
  refine ⟨?_, ?_, ?_, ?_, by decide, by decide⟩
  · rw [show "PT".data ++ natToDec n ++ "S".data =
        'P' :: 'T' :: (natToDec n ++ ['S']) from by simp,
      parse_duration_iso_time_eval n 'S' 1 (Or.inr (Or.inr ⟨rfl, rfl⟩)),
      parse_duration_shorthand_eval n 's' (Or.inl rfl)]
    by_cases hn : n < 2 ^ 64
    · rw [if_pos hn, if_pos hn, if_pos rfl,
        show checkedMul n 1 = some n from by unfold checkedMul; rw [Nat.mul_one, if_pos hn]]
    · rw [if_neg hn, if_neg hn]
  · rw [show "PT".data ++ natToDec n ++ "M".data =
        'P' :: 'T' :: (natToDec n ++ ['M']) from by simp,
      parse_duration_iso_time_eval n 'M' 60 (Or.inr (Or.inl ⟨rfl, rfl⟩)),
      parse_duration_shorthand_eval n 'm' (Or.inr (Or.inl rfl))]
    simp [(by decide : ¬(('m' : Char) = 's'))]
  · rw [show "PT".data ++ natToDec n ++ "H".data =
        'P' :: 'T' :: (natToDec n ++ ['H']) from by simp,
      parse_duration_iso_time_eval n 'H' 3600 (Or.inl ⟨rfl, rfl⟩),
      parse_duration_shorthand_eval n 'h' (Or.inr (Or.inr (Or.inl rfl)))]
    simp [(by decide : ¬(('h' : Char) = 's')), (by decide : ¬(('h' : Char) = 'm'))]
  · rw [show "P".data ++ natToDec n ++ "D".data =
        'P' :: (natToDec n ++ ['D']) from by simp,
      parse_duration_iso_date_eval n,
      parse_duration_shorthand_eval n 'd' (Or.inr (Or.inr (Or.inr rfl)))]
    simp [(by decide : ¬(('d' : Char) = 's')), (by decide : ¬(('d' : Char) = 'm')),
      (by decide : ¬(('d' : Char) = 'h'))]

end Oatf
